import Mathlib

/-!
Verification of the continuous-time Markov cohort simulator in
`src/MarkovClasses.py` (classes `Patient`, `PatientStateMonitor`, `Cohort`,
`CohortOutcomes`).  The per-patient Gillespie loop, the state monitor, the
cohort loop and the outcome aggregation are embedded as executable Lean
functions; time is modelled by `ℚ` and the patient's random stream together
with the external Gillespie stepper is modelled as a deterministic step
function on an abstract rng-state type.
-/

/-- Modelled from the spec: the `HealthStates` enumeration is imported from
`InputData`, which is not under src/.  The spec fixes an ordered,
integer-indexed closed set of states; only the four states referenced by the
source (`WELL`, `STROKE`, `STROKE_DEAD`, `NATURAL_DEATH`) are modelled here;
any further state would behave exactly like `WELL` in the monitor. -/
inductive HealthStates : Type where
  | WELL
  | STROKE
  | STROKE_DEAD
  | NATURAL_DEATH
deriving DecidableEq

/-- The integer index of a state (`HealthStates.value` in Python). -/
def HealthStates.value : HealthStates → ℕ
  | .WELL => 0
  | .STROKE => 1
  | .STROKE_DEAD => 2
  | .NATURAL_DEATH => 3

/-- `HealthStates(i)` in Python: recover a state from its integer index;
`none` models the `ValueError` raised for an invalid index. -/
def HealthStates.ofValue? : ℕ → Option HealthStates
  | 0 => some .WELL
  | 1 => some .STROKE
  | 2 => some .STROKE_DEAD
  | 3 => some .NATURAL_DEATH
  | _ => none

theorem HealthStates.ofValue?_value (s : HealthStates) :
    HealthStates.ofValue? s.value = some s := by
  cases s <;> rfl

/-- The death-type states tested in `PatientStateMonitor.update`
(line 74 of the source). -/
abbrev isDeathState (s : HealthStates) : Prop :=
  s = HealthStates.STROKE_DEAD ∨ s = HealthStates.NATURAL_DEATH

/-- The stroke-incurring states tested in `PatientStateMonitor.update`
(line 78 of the source). -/
abbrev isStrokeState (s : HealthStates) : Prop :=
  s = HealthStates.STROKE ∨ s = HealthStates.STROKE_DEAD

/-- The monitor owned by one patient (`PatientStateMonitor`). -/
structure PatientStateMonitor where
  currentState : HealthStates
  survivalTime : Option ℚ
  nStrokes : ℕ
deriving DecidableEq

/-- `PatientStateMonitor.__init__`: everyone starts in `WELL`, no survival
time recorded, no strokes. -/
def PatientStateMonitor.init : PatientStateMonitor :=
  ⟨HealthStates.WELL, none, 0⟩

/-- `PatientStateMonitor.update(time, new_state)`: record the survival time on
death-type states, count stroke-type states, and set the current state. -/
def PatientStateMonitor.update (m : PatientStateMonitor) (time : ℚ)
    (new_state : HealthStates) : PatientStateMonitor :=
  let m1 := if isDeathState new_state then { m with survivalTime := some time } else m
  let m2 := if isStrokeState new_state then { m1 with nStrokes := m1.nStrokes + 1 } else m1
  { m2 with currentState := new_state }

theorem PatientStateMonitor.update_currentState (m : PatientStateMonitor)
    (t : ℚ) (ns : HealthStates) : (m.update t ns).currentState = ns := rfl

theorem PatientStateMonitor.update_survivalTime (m : PatientStateMonitor)
    (t : ℚ) (ns : HealthStates) :
    (m.update t ns).survivalTime = if isDeathState ns then some t else m.survivalTime := by
  unfold PatientStateMonitor.update
  by_cases h1 : isDeathState ns <;> by_cases h2 : isStrokeState ns <;> simp [h1, h2]

theorem PatientStateMonitor.update_nStrokes (m : PatientStateMonitor)
    (t : ℚ) (ns : HealthStates) :
    (m.update t ns).nStrokes = if isStrokeState ns then m.nStrokes + 1 else m.nStrokes := by
  unfold PatientStateMonitor.update
  by_cases h1 : isDeathState ns <;> by_cases h2 : isStrokeState ns <;> simp [h1, h2]

/-- Modelled from the spec: `SimPy.Markov.Gillespie` and the numpy random
stream are not under src/.  The spec (section 4.1) requires a deterministic
stepper: given the rate matrix (fixed inside the structure), the current state
index and the rng state, it returns `none` for the holding time when the
current state is absorbing, otherwise a holding time and a destination index,
together with the advanced rng state. -/
structure Gillespie (R : Type) where
  get_next_state : ℕ → R → Option (ℚ × ℕ) × R

/-- One recorded `stateMonitor.update` call of a run: the time and state
passed to the monitor, whether it was a real sampled transition (`false` for
the horizon-clamp update), and the monitor state just after the call. -/
structure TraceEntry where
  time : ℚ
  state : HealthStates
  isRealTransition : Bool
  after : PatientStateMonitor
deriving DecidableEq

/-- The mutable state of the `while not if_stop` loop in `Patient.simulate`:
elapsed time `t`, the patient's monitor, the rng state and the list of monitor
updates performed so far (in order). -/
structure LoopState (R : Type) where
  t : ℚ
  monitor : PatientStateMonitor
  rng : R
  trace : List TraceEntry
deriving DecidableEq

/-- Result of one body iteration of the loop. -/
inductive StepOut (R : Type) where
  | halt (s : LoopState R)
  | next (s : LoopState R)
  | invalidIndex
deriving DecidableEq

/-- The horizon-clamp arm of the loop body (lines 45-50, 55): `t` is set to
`sim_length`, the pre-transition state's index is converted back through the
enumeration, and the monitor is updated once with the clamped time. -/
def clampStep {R : Type} (s : LoopState R) (sim_length : ℚ) (r' : R) :
    Option HealthStates → StepOut R
  | none => StepOut.invalidIndex
  | some ns =>
    StepOut.halt
      { t := sim_length
        monitor := s.monitor.update sim_length ns
        rng := r'
        trace := s.trace ++ [⟨sim_length, ns, false, s.monitor.update sim_length ns⟩] }

/-- The ordinary-transition arm of the loop body (lines 51-55): `t` advances
by `dt` and the monitor is updated with the sampled destination state. -/
def moveStep {R : Type} (s : LoopState R) (dt : ℚ) (r' : R) :
    Option HealthStates → StepOut R
  | none => StepOut.invalidIndex
  | some ns =>
    StepOut.next
      { t := s.t + dt
        monitor := s.monitor.update (s.t + dt) ns
        rng := r'
        trace := s.trace ++ [⟨s.t + dt, ns, true, s.monitor.update (s.t + dt) ns⟩] }

/-- Dispatch on the stepper's answer `(dt, new_state_index)`: stop without an
update when `dt` is `None` (absorbing state, lines 40-41), clamp when
`dt + t > sim_length` (lines 44-50), otherwise apply the transition. -/
def simStepGo {R : Type} (s : LoopState R) (sim_length : ℚ) (r' : R) :
    Option (ℚ × ℕ) → StepOut R
  | none => StepOut.halt { s with rng := r' }
  | some (dt, new_state_index) =>
    if dt + s.t > sim_length then
      clampStep s sim_length r' (HealthStates.ofValue? s.monitor.currentState.value)
    else
      moveStep s dt r' (HealthStates.ofValue? new_state_index)

/-- One iteration of the loop body of `Patient.simulate` (lines 31-55 of the
source): ask the stepper for `(dt, new_state_index)` from the current state's
index and the patient's rng, then dispatch.  `invalidIndex` models the
`ValueError` of `HealthStates(i)` on an index outside the enumeration. -/
def simStep {R : Type} (g : Gillespie R) (sim_length : ℚ) (s : LoopState R) :
    StepOut R :=
  simStepGo s sim_length
    (g.get_next_state s.monitor.currentState.value s.rng).2
    (g.get_next_state s.monitor.currentState.value s.rng).1

/-- Outcome of a whole run: the final loop state, or the `ValueError` raised
on an invalid state index. -/
inductive SimOutcome (R : Type) where
  | done (s : LoopState R)
  | stateError
deriving DecidableEq

/-- Fuelled unfolding of the `while not if_stop` loop; `none` means the fuel
ran out before the loop stopped. -/
def simulateAux {R : Type} (g : Gillespie R) (sim_length : ℚ) :
    ℕ → LoopState R → Option (SimOutcome R)
  | 0, _ => none
  | fuel + 1, s =>
    match simStep g sim_length s with
    | StepOut.halt s' => some (SimOutcome.done s')
    | StepOut.invalidIndex => some SimOutcome.stateError
    | StepOut.next s' => simulateAux g sim_length fuel s'

/-- The loop state at entry of `Patient.simulate`: `t = 0`, a fresh monitor,
and a private rng stream seeded from the patient's id
(`np.random.RandomState(seed=self.id)`, modelled by `initRng`). -/
def initState {R : Type} (initRng : ℤ → R) (id : ℤ) : LoopState R :=
  ⟨0, PatientStateMonitor.init, initRng id, []⟩

/-- `Patient.simulate(sim_length)`: run the Gillespie loop from a fresh
monitor with the patient's private rng stream. -/
def Patient.simulate {R : Type} (g : Gillespie R) (initRng : ℤ → R) (id : ℤ)
    (sim_length : ℚ) (fuel : ℕ) : Option (SimOutcome R) :=
  simulateAux g sim_length fuel (initState initRng id)

/-- Last element of a list, with a fallback for the empty list. -/
def lastD {α : Type} : List α → α → α
  | [], d => d
  | a :: l, _ => lastD l a

theorem lastD_concat {α : Type} : ∀ (l : List α) (x d : α), lastD (l ++ [x]) d = x
  | [], _, _ => rfl
  | a :: l, x, _ => by simpa [lastD] using lastD_concat l x a

theorem chain'_concat {α : Type} (Rl : α → α → Prop) :
    ∀ (l : List α) (x d : α), List.Chain' Rl l → l ≠ [] → Rl (lastD l d) x →
      List.Chain' Rl (l ++ [x])
  | [], _, _, _, hne, _ => absurd rfl hne
  | [a], x, _, _, _, hr => by
      simpa using List.chain'_cons.mpr ⟨by simpa [lastD] using hr, List.chain'_singleton x⟩
  | a :: b :: l, x, d, hc, _, hr => by
      rw [List.cons_append]
      rcases List.chain'_cons.mp hc with ⟨hab, hbl⟩
      exact List.chain'_cons.mpr
        ⟨hab, chain'_concat Rl (b :: l) x a hbl (by simp) (by simpa [lastD] using hr)⟩

/-- The sequence of monitor states produced by a run: the initial monitor
followed by the monitor state after each recorded update. -/
def monSeq {R : Type} (s : LoopState R) : List PatientStateMonitor :=
  PatientStateMonitor.init :: s.trace.map TraceEntry.after

/-- One monitor update changes `nStrokes` by 0 or +1. -/
def strokeStepRel (m m' : PatientStateMonitor) : Prop :=
  m'.nStrokes = m.nStrokes ∨ m'.nStrokes = m.nStrokes + 1

/-- `nStrokes` is non-decreasing across one monitor update. -/
def strokeMonoRel (m m' : PatientStateMonitor) : Prop :=
  m.nStrokes ≤ m'.nStrokes

/-- Between consecutive monitor states of a run: a survival time, once set,
keeps its value, and `nStrokes` changes by 0 or +1. -/
def monitorStepRel (m m' : PatientStateMonitor) : Prop :=
  (∀ v, m.survivalTime = some v → m'.survivalTime = some v) ∧ strokeStepRel m m'

/-- Whether a recorded update carries a stroke-type state. -/
def isStrokeEntry (e : TraceEntry) : Bool :=
  decide (isStrokeState e.state)

/-- The number of recorded updates that were real sampled transitions into a
stroke-type state (the horizon-clamp update is excluded). -/
def realStrokeCount (tr : List TraceEntry) : ℕ :=
  tr.countP (fun e => e.isRealTransition && isStrokeEntry e)

/-- Case analysis of one loop-body iteration of `Patient.simulate`. -/
theorem simStep_cases {R : Type} (g : Gillespie R) (L : ℚ) (s : LoopState R) :
    (∃ r', g.get_next_state s.monitor.currentState.value s.rng = (none, r') ∧
      simStep g L s = StepOut.halt { s with rng := r' }) ∨
    (∃ dt nsi r', g.get_next_state s.monitor.currentState.value s.rng = (some (dt, nsi), r') ∧
      dt + s.t > L ∧
      simStep g L s = StepOut.halt ⟨L, s.monitor.update L s.monitor.currentState, r',
        s.trace ++ [⟨L, s.monitor.currentState, false,
          s.monitor.update L s.monitor.currentState⟩]⟩) ∨
    (∃ dt nsi r' ns, g.get_next_state s.monitor.currentState.value s.rng = (some (dt, nsi), r') ∧
      ¬(dt + s.t > L) ∧ HealthStates.ofValue? nsi = some ns ∧
      simStep g L s = StepOut.next ⟨s.t + dt, s.monitor.update (s.t + dt) ns, r',
        s.trace ++ [⟨s.t + dt, ns, true, s.monitor.update (s.t + dt) ns⟩]⟩) ∨
    (∃ dt nsi r', g.get_next_state s.monitor.currentState.value s.rng = (some (dt, nsi), r') ∧
      ¬(dt + s.t > L) ∧ HealthStates.ofValue? nsi = none ∧
      simStep g L s = StepOut.invalidIndex) := by
  rcases hg : g.get_next_state s.monitor.currentState.value s.rng with ⟨o, r'⟩
  have hs0 : simStep g L s = simStepGo s L r' o := by
    unfold simStep
    rw [hg]
  cases o with
  | none => exact Or.inl ⟨r', rfl, by rw [hs0]; rfl⟩
  | some p =>
    rcases p with ⟨dt, nsi⟩
    by_cases hov : dt + s.t > L
    · refine Or.inr (Or.inl ⟨dt, nsi, r', rfl, hov, ?_⟩)
      rw [hs0]
      simp only [simStepGo]
      rw [if_pos hov, HealthStates.ofValue?_value]
      rfl
    · cases hv : HealthStates.ofValue? nsi with
      | none =>
        refine Or.inr (Or.inr (Or.inr ⟨dt, nsi, r', rfl, hov, hv, ?_⟩))
        rw [hs0]
        simp only [simStepGo]
        rw [if_neg hov, hv]
        rfl
      | some ns =>
        refine Or.inr (Or.inr (Or.inl ⟨dt, nsi, r', ns, rfl, hov, hv, ?_⟩))
        rw [hs0]
        simp only [simStepGo]
        rw [if_neg hov, hv]
        rfl

/-- Invariant of the loop relating the monitor to the recorded trace. -/
structure SimInv {R : Type} (L : ℚ) (s : LoopState R) : Prop where
  last_after : s.monitor = lastD (s.trace.map TraceEntry.after) PatientStateMonitor.init
  entries_update : ∀ e ∈ s.trace, ∃ m : PatientStateMonitor, e.after = m.update e.time e.state
  times_le : ∀ e ∈ s.trace, e.time ≤ L
  strokes_count : s.monitor.nStrokes = s.trace.countP isStrokeEntry
  strokes_chain : List.Chain' strokeStepRel (monSeq s)

theorem simInv_initial {R : Type} (L : ℚ) (initRng : ℤ → R) (id : ℤ) :
    SimInv L (initState initRng id) :=
  ⟨rfl, by simp [initState], by simp [initState], rfl, List.chain'_singleton _⟩

theorem lastD_monSeq {R : Type} {L : ℚ} {s : LoopState R} (hs : SimInv L s) :
    lastD (monSeq s) PatientStateMonitor.init = s.monitor := by
  simpa [monSeq, lastD] using hs.last_after.symm

theorem simInv_append {R : Type} {L : ℚ} {s : LoopState R} (hs : SimInv L s)
    (τ : ℚ) (ns : HealthStates) (b : Bool) (r' : R) (hτ : τ ≤ L) :
    SimInv L ⟨τ, s.monitor.update τ ns, r',
      s.trace ++ [⟨τ, ns, b, s.monitor.update τ ns⟩]⟩ := by
  have hmeq : monSeq (⟨τ, s.monitor.update τ ns, r',
      s.trace ++ [⟨τ, ns, b, s.monitor.update τ ns⟩]⟩ : LoopState R)
      = monSeq s ++ [s.monitor.update τ ns] := by
    simp [monSeq]
  constructor
  · simp [lastD_concat]
  · intro e he
    rcases List.mem_append.mp he with h | h
    · exact hs.entries_update e h
    · rw [List.mem_singleton.mp h]
      exact ⟨s.monitor, rfl⟩
  · intro e he
    rcases List.mem_append.mp he with h | h
    · exact hs.times_le e h
    · rw [List.mem_singleton.mp h]
      exact hτ
  · by_cases hst : isStrokeState ns <;>
      simp [List.countP_append, List.countP_cons, isStrokeEntry, hst,
        PatientStateMonitor.update_nStrokes, hs.strokes_count]
  · rw [hmeq]
    refine chain'_concat _ _ _ PatientStateMonitor.init hs.strokes_chain (by simp [monSeq]) ?_
    rw [lastD_monSeq hs, strokeStepRel, PatientStateMonitor.update_nStrokes]
    by_cases hst : isStrokeState ns <;> simp [hst]

theorem simInv_step {R : Type} {g : Gillespie R} {L : ℚ} {s s' : LoopState R}
    (hs : SimInv L s)
    (h : simStep g L s = StepOut.halt s' ∨ simStep g L s = StepOut.next s') :
    SimInv L s' := by
  rcases simStep_cases g L s with ⟨r', hg, he⟩ | ⟨dt, nsi, r', hg, hov, he⟩ |
    ⟨dt, nsi, r', ns, hg, hov, hv, he⟩ | ⟨dt, nsi, r', hg, hov, hv, he⟩
  · rcases h with h | h <;> rw [he] at h
    · injection h with h; rw [← h]
      exact ⟨hs.last_after, hs.entries_update, hs.times_le, hs.strokes_count, hs.strokes_chain⟩
    · injection h
  · rcases h with h | h <;> rw [he] at h
    · injection h with h; rw [← h]
      exact simInv_append hs L s.monitor.currentState false r' le_rfl
    · injection h
  · rcases h with h | h <;> rw [he] at h
    · injection h
    · injection h with h; rw [← h]
      exact simInv_append hs (s.t + dt) ns true r' (by linarith [not_lt.mp hov])
  · rcases h with h | h <;> rw [he] at h <;> injection h

/-- Statelessness of the two death states: the Gillespie stepper never leaves
them (row of the rate matrix all zero, spec sections 3 and 4.1). -/
def DeathAbsorbing {R : Type} (g : Gillespie R) : Prop :=
  ∀ (r : R) (st : HealthStates), isDeathState st → (g.get_next_state st.value r).1 = none

/-- Invariant available when death states are absorbing: a set survival time
certifies that the current state is a death state, and the monitor sequence
satisfies `monitorStepRel` between consecutive states. -/
structure AbsInv {R : Type} (s : LoopState R) : Prop where
  dinv : s.monitor.survivalTime ≠ none → isDeathState s.monitor.currentState
  chain : List.Chain' monitorStepRel (monSeq s)

theorem absInv_initial {R : Type} (initRng : ℤ → R) (id : ℤ) :
    AbsInv (initState initRng id) :=
  ⟨fun h => absurd rfl h, List.chain'_singleton _⟩

theorem absInv_append {R : Type} {L : ℚ} {s : LoopState R} (hs : SimInv L s) (ha : AbsInv s)
    (hnd : ¬ isDeathState s.monitor.currentState) (τ : ℚ) (ns : HealthStates) (b : Bool)
    (r' : R) :
    AbsInv ⟨τ, s.monitor.update τ ns, r',
      s.trace ++ [⟨τ, ns, b, s.monitor.update τ ns⟩]⟩ := by
  have hsv : s.monitor.survivalTime = none := by
    by_contra hne
    exact hnd (ha.dinv hne)
  have hmeq : monSeq (⟨τ, s.monitor.update τ ns, r',
      s.trace ++ [⟨τ, ns, b, s.monitor.update τ ns⟩]⟩ : LoopState R)
      = monSeq s ++ [s.monitor.update τ ns] := by
    simp [monSeq]
  constructor
  · intro h'
    rw [PatientStateMonitor.update_currentState]
    by_cases hd : isDeathState ns
    · exact hd
    · exfalso
      apply h'
      rw [PatientStateMonitor.update_survivalTime]
      simp [hd, hsv]
  · rw [hmeq]
    refine chain'_concat _ _ _ PatientStateMonitor.init ha.chain (by simp [monSeq]) ?_
    rw [lastD_monSeq hs]
    constructor
    · intro v hv
      rw [hsv] at hv
      exact Option.noConfusion hv
    · rw [strokeStepRel, PatientStateMonitor.update_nStrokes]
      by_cases hst : isStrokeState ns <;> simp [hst]

theorem absInv_step {R : Type} {g : Gillespie R} {L : ℚ} {s s' : LoopState R}
    (hA : DeathAbsorbing g) (hs : SimInv L s) (ha : AbsInv s)
    (h : simStep g L s = StepOut.halt s' ∨ simStep g L s = StepOut.next s') :
    AbsInv s' := by
  rcases simStep_cases g L s with ⟨r', hg, he⟩ | ⟨dt, nsi, r', hg, hov, he⟩ |
    ⟨dt, nsi, r', ns, hg, hov, hv, he⟩ | ⟨dt, nsi, r', hg, hov, hv, he⟩
  · rcases h with h | h <;> rw [he] at h
    · injection h with h; rw [← h]
      exact ⟨ha.dinv, ha.chain⟩
    · injection h
  · have hnd : ¬ isDeathState s.monitor.currentState := by
      intro hd
      have h0 := hA s.rng s.monitor.currentState hd
      rw [hg] at h0
      exact Option.noConfusion h0
    rcases h with h | h <;> rw [he] at h
    · injection h with h; rw [← h]
      exact absInv_append hs ha hnd L s.monitor.currentState false r'
    · injection h
  · have hnd : ¬ isDeathState s.monitor.currentState := by
      intro hd
      have h0 := hA s.rng s.monitor.currentState hd
      rw [hg] at h0
      exact Option.noConfusion h0
    rcases h with h | h <;> rw [he] at h
    · injection h
    · injection h with h; rw [← h]
      exact absInv_append hs ha hnd (s.t + dt) ns true r'
  · rcases h with h | h <;> rw [he] at h <;> injection h

/-- Any predicate preserved by the loop body holds at the final state of a
completed run. -/
theorem simulateAux_done_inv {R : Type} {g : Gillespie R} {L : ℚ}
    {P : LoopState R → Prop}
    (hstep : ∀ s s', P s →
      (simStep g L s = StepOut.halt s' ∨ simStep g L s = StepOut.next s') → P s') :
    ∀ (fuel : ℕ) (s s' : LoopState R), P s →
      simulateAux g L fuel s = some (SimOutcome.done s') → P s'
  | 0, s, s', _, h => by simp [simulateAux] at h
  | fuel + 1, s, s', hp, h => by
      simp only [simulateAux] at h
      rcases hc : simStep g L s with s₂ | s₂
      · rw [hc] at h
        simp only [Option.some.injEq, SimOutcome.done.injEq] at h
        rw [← h]
        exact hstep s s₂ hp (Or.inl hc)
      · rw [hc] at h
        exact simulateAux_done_inv hstep fuel s₂ s' (hstep s s₂ hp (Or.inr hc)) h
      · rw [hc] at h
        simp at h

theorem simulate_SimInv {R : Type} {g : Gillespie R} {initRng : ℤ → R} {id : ℤ}
    {L : ℚ} {fuel : ℕ} {s' : LoopState R}
    (h : Patient.simulate g initRng id L fuel = some (SimOutcome.done s')) :
    SimInv L s' :=
  simulateAux_done_inv (fun _ _ hp hd => simInv_step hp hd) fuel _ s'
    (simInv_initial L initRng id) h

theorem simulate_AbsInv {R : Type} {g : Gillespie R} {initRng : ℤ → R} {id : ℤ}
    {L : ℚ} {fuel : ℕ} {s' : LoopState R} (hA : DeathAbsorbing g)
    (h : Patient.simulate g initRng id L fuel = some (SimOutcome.done s')) :
    AbsInv s' :=
  (simulateAux_done_inv (P := fun s => SimInv L s ∧ AbsInv s)
    (fun _ _ hp hd => ⟨simInv_step hp.1 hd, absInv_step hA hp.1 hp.2 hd⟩) fuel _ s'
    ⟨simInv_initial L initRng id, absInv_initial initRng id⟩ h).2

/-- Lower bound on every holding time the stepper can return (any fixed finite
family of positive exponential draws admits such a bound). -/
def GPos {R : Type} (g : Gillespie R) (δ : ℚ) : Prop :=
  ∀ (i : ℕ) (r : R) (dt : ℚ) (nsi : ℕ) (r' : R),
    g.get_next_state i r = (some (dt, nsi), r') → δ ≤ dt

/-- Fuel sufficiency: when every holding time is at least `δ > 0`, the loop
stops within `⌈(L - t)/δ⌉` further iterations. -/
theorem simulateAux_total {R : Type} {g : Gillespie R} {L δ : ℚ} (hδ : 0 < δ)
    (hg : GPos g δ) :
    ∀ (fuel : ℕ) (s : LoopState R), ⌈(L - s.t) / δ⌉.toNat < fuel →
      (simulateAux g L fuel s).isSome = true
  | 0, _, hf => absurd hf (Nat.not_lt_zero _)
  | fuel + 1, s, hf => by
      simp only [simulateAux]
      rcases simStep_cases g L s with ⟨r', hgc, he⟩ | ⟨dt, nsi, r', hgc, hov, he⟩ |
        ⟨dt, nsi, r', ns, hgc, hov, hv, he⟩ | ⟨dt, nsi, r', hgc, hov, hv, he⟩
      · rw [he]
        rfl
      · rw [he]
        rfl
      · rw [he]
        apply simulateAux_total hδ hg fuel
        show ⌈(L - (s.t + dt)) / δ⌉.toNat < fuel
        have hdt : δ ≤ dt := hg _ _ _ _ _ hgc
        have hle : s.t + dt ≤ L := by linarith [not_lt.mp hov]
        have h1 : (L - (s.t + dt)) / δ ≤ (L - s.t) / δ - 1 := by
          have hstep1 : (L - (s.t + dt)) / δ ≤ (L - s.t - δ) / δ :=
            (div_le_div_iff_of_pos_right hδ).mpr (by linarith)
          have hstep2 : (L - s.t - δ) / δ = (L - s.t) / δ - 1 := by
            rw [sub_div, div_self (ne_of_gt hδ)]
          linarith
        have h2 : ⌈(L - (s.t + dt)) / δ⌉ ≤ ⌈(L - s.t) / δ⌉ - 1 := by
          have := Int.ceil_mono h1
          rwa [Int.ceil_sub_one] at this
        have h3 : (0:ℤ) ≤ ⌈(L - (s.t + dt)) / δ⌉ :=
          Int.ceil_nonneg (div_nonneg (by linarith) hδ.le)
        omega
      · rw [he]
        rfl

/-- Ordering of survival-curve breakpoints by time. -/
def timeLE (a b : ℚ × ℤ) : Prop := a.1 ≤ b.1

instance : DecidableRel timeLE := fun a b => inferInstanceAs (Decidable (a.1 ≤ b.1))

instance : IsTotal (ℚ × ℤ) timeLE := ⟨fun a b => le_total a.1 b.1⟩

instance : IsTrans (ℚ × ℤ) timeLE := ⟨fun _ _ _ h1 h2 => le_trans h1 h2⟩

/-- Accumulate the (time, increment) change points into running population
counts. -/
def curveFrom (acc : ℤ) : List (ℚ × ℤ) → List (ℚ × ℤ)
  | [] => []
  | (τ, inc) :: rest => (τ, acc + inc) :: curveFrom (acc + inc) rest

/-- Modelled from the spec: `SimPy.SamplePath.PrevalencePathBatchUpdate` is an
external sample-path structure not under src/.  Per the spec (sections 4.5 and
6), the survival curve is the step function that starts at `initial_size` at
time 0 and applies each `(time_of_change, increment)` pair in non-decreasing
time order; it is represented by its ordered `(time, livingCount)`
breakpoints. -/
def PrevalencePathBatchUpdate (initial_size : ℤ) (times_of_changes : List ℚ)
    (increments : List ℤ) : List (ℚ × ℤ) :=
  (0, initial_size) ::
    curveFrom initial_size (List.insertionSort timeLE (times_of_changes.zip increments))

/-- Between consecutive survival-curve breakpoints: time does not decrease and
the living count drops by exactly one. -/
def curveStepRel (a b : ℚ × ℤ) : Prop :=
  a.1 ≤ b.1 ∧ b.2 + 1 = a.2

theorem curveFrom_length : ∀ (l : List (ℚ × ℤ)) (acc : ℤ),
    (curveFrom acc l).length = l.length
  | [], _ => rfl
  | (τ, i) :: rest, acc => by
      simp [curveFrom, curveFrom_length rest (acc + i)]

theorem curveFrom_chain : ∀ (l : List (ℚ × ℤ)) (acc : ℤ) (p0 : ℚ × ℤ),
    p0.2 = acc → (∀ q ∈ l, q.2 = -1) → List.Chain' timeLE (p0 :: l) →
    List.Chain' curveStepRel (p0 :: curveFrom acc l)
  | [], _, _, _, _, _ => List.chain'_singleton _
  | (τ, i) :: rest, acc, p0, hp0, hmem, hch => by
      have hi : i = -1 := hmem (τ, i) (List.mem_cons_self _ _)
      rcases List.chain'_cons.mp hch with ⟨h01, hrest⟩
      show List.Chain' curveStepRel (p0 :: (τ, acc + i) :: curveFrom (acc + i) rest)
      refine List.chain'_cons.mpr ⟨⟨h01, ?_⟩, ?_⟩
      · show acc + i + 1 = p0.2
        rw [hp0, hi]
        ring
      · refine curveFrom_chain rest (acc + i) (τ, acc + i) rfl
          (fun q hq => hmem q (List.mem_cons_of_mem _ hq)) ?_
        rcases rest with _ | ⟨q, rest'⟩
        · exact List.chain'_singleton _
        · rcases List.chain'_cons.mp hrest with ⟨hq, hr2⟩
          exact List.chain'_cons.mpr ⟨hq, hr2⟩

/-- The aggregate of per-patient outcomes (`CohortOutcomes.__init__`). -/
structure CohortOutcomes where
  survivalTimes : List ℚ
  nTotalStrokes : List ℕ
  nLivingPatients : Option (List (ℚ × ℤ))
  meanSurvivalTime : Option ℚ
  meanNumOfStrokes : Option ℚ
deriving DecidableEq

def CohortOutcomes.init : CohortOutcomes := ⟨[], [], none, none, none⟩

/-- `CohortOutcomes.extract_outcome`: append the survival time when one was
recorded, and always append the stroke count. -/
def CohortOutcomes.extract_outcome (c : CohortOutcomes) (m : PatientStateMonitor) :
    CohortOutcomes :=
  let c1 :=
    match m.survivalTime with
    | some v => { c with survivalTimes := c.survivalTimes ++ [v] }
    | none => c
  { c1 with nTotalStrokes := c1.nTotalStrokes ++ [m.nStrokes] }

/-- `CohortOutcomes.calculate_cohort_outcomes` (lines 137-153): compute the two
means by `sum(..)/len(..)` and build the survival curve.  The second component
records the `ZeroDivisionError` Python raises on an empty sequence; field
assignments made before the raise are kept, as in Python. -/
def CohortOutcomes.calculate_cohort_outcomes (c : CohortOutcomes)
    (initial_pop_size : ℤ) : CohortOutcomes × Option String :=
  if c.survivalTimes = [] then (c, some "ZeroDivisionError")
  else if c.nTotalStrokes = [] then
    ({ c with
        meanSurvivalTime := some (c.survivalTimes.sum / (c.survivalTimes.length : ℚ)) },
      some "ZeroDivisionError")
  else
    ({ c with
        meanSurvivalTime := some (c.survivalTimes.sum / (c.survivalTimes.length : ℚ))
        meanNumOfStrokes :=
          some ((c.nTotalStrokes.map (fun n => (n : ℚ))).sum / (c.nTotalStrokes.length : ℚ))
        nLivingPatients :=
          some (PrevalencePathBatchUpdate initial_pop_size c.survivalTimes
            (List.replicate c.survivalTimes.length (-1))) },
      none)

/-- The monitor a completed run of `Patient.simulate` leaves behind. -/
def patientFinal {R : Type} (g : Gillespie R) (initRng : ℤ → R) (id : ℤ)
    (sim_length : ℚ) (fuel : ℕ) : Option PatientStateMonitor :=
  match Patient.simulate g initRng id sim_length fuel with
  | some (SimOutcome.done s) => some s.monitor
  | _ => none

/-- One iteration of the cohort loop (lines 104-112): create the patient with
id `cohort.id * pop_size + i`, simulate it, extract its outcome. -/
def cohortStep {R : Type} (g : Gillespie R) (initRng : ℤ → R) (cid pop_size : ℤ)
    (sim_length : ℚ) (fuel : ℕ) (acc : Option CohortOutcomes) (i : ℕ) :
    Option CohortOutcomes :=
  match acc with
  | none => none
  | some c =>
    match Patient.simulate g initRng (cid * pop_size + (i : ℤ)) sim_length fuel with
    | some (SimOutcome.done s) => some (c.extract_outcome s.monitor)
    | _ => none

/-- `Cohort.simulate(sim_length)` (lines 98-115): run every patient in order,
extracting outcomes into the shared aggregate, then calculate the cohort
outcomes.  `none` propagates a patient run that did not complete. -/
def Cohort.simulate {R : Type} (g : Gillespie R) (initRng : ℤ → R) (cid pop_size : ℤ)
    (sim_length : ℚ) (fuel : ℕ) : Option (CohortOutcomes × Option String) :=
  match (List.range pop_size.toNat).foldl
      (cohortStep g initRng cid pop_size sim_length fuel) (some CohortOutcomes.init) with
  | none => none
  | some c => some (c.calculate_cohort_outcomes pop_size)

/-- The per-patient results, each computed independently from its own id. -/
def runPatients {R : Type} (g : Gillespie R) (initRng : ℤ → R) (cid pop_size : ℤ)
    (sim_length : ℚ) (fuel : ℕ) : List ℕ → Option (List PatientStateMonitor)
  | [] => some []
  | i :: rest =>
    match patientFinal g initRng (cid * pop_size + (i : ℤ)) sim_length fuel,
        runPatients g initRng cid pop_size sim_length fuel rest with
    | some m, some ms => some (m :: ms)
    | _, _ => none

theorem cohortStep_some {R : Type} (g : Gillespie R) (initRng : ℤ → R)
    (cid n : ℤ) (L : ℚ) (fuel : ℕ) (c : CohortOutcomes) (i : ℕ) :
    cohortStep g initRng cid n L fuel (some c) i
      = (patientFinal g initRng (cid * n + (i : ℤ)) L fuel).map
          (fun m => c.extract_outcome m) := by
  unfold cohortStep patientFinal
  cases hps : Patient.simulate g initRng (cid * n + (i : ℤ)) L fuel with
  | none => rfl
  | some o => cases o with
    | done s => rfl
    | stateError => rfl

theorem foldl_cohortStep_none {R : Type} (g : Gillespie R) (initRng : ℤ → R)
    (cid n : ℤ) (L : ℚ) (fuel : ℕ) :
    ∀ l : List ℕ, List.foldl (cohortStep g initRng cid n L fuel) none l = none
  | [] => rfl
  | i :: l => by
      rw [List.foldl_cons]
      exact foldl_cohortStep_none g initRng cid n L fuel l

theorem foldl_cohortStep_eq {R : Type} (g : Gillespie R) (initRng : ℤ → R)
    (cid n : ℤ) (L : ℚ) (fuel : ℕ) :
    ∀ (l : List ℕ) (c : CohortOutcomes),
      List.foldl (cohortStep g initRng cid n L fuel) (some c) l
        = (runPatients g initRng cid n L fuel l).map
            (fun ms => ms.foldl CohortOutcomes.extract_outcome c)
  | [], c => rfl
  | i :: l, c => by
      rw [List.foldl_cons, cohortStep_some]
      cases hp : patientFinal g initRng (cid * n + (i : ℤ)) L fuel with
      | none => simp [runPatients, hp, foldl_cohortStep_none]
      | some m =>
        rw [Option.map_some']
        rw [foldl_cohortStep_eq g initRng cid n L fuel l (c.extract_outcome m)]
        cases hr : runPatients g initRng cid n L fuel l with
        | none => simp [runPatients, hp, hr]
        | some ms => simp [runPatients, hp, hr]

/-- The cohort loop is a map over independent per-patient runs followed by a
fold: each patient's contribution depends only on its own id. -/
theorem Cohort.simulate_eq_runPatients {R : Type} (g : Gillespie R) (initRng : ℤ → R)
    (cid n : ℤ) (L : ℚ) (fuel : ℕ) :
    Cohort.simulate g initRng cid n L fuel
      = (runPatients g initRng cid n L fuel (List.range n.toNat)).map
          (fun ms => (ms.foldl CohortOutcomes.extract_outcome
            CohortOutcomes.init).calculate_cohort_outcomes n) := by
  unfold Cohort.simulate
  rw [foldl_cohortStep_eq]
  cases hr : runPatients g initRng cid n L fuel (List.range n.toNat) with
  | none => rfl
  | some ms => rfl

/-! Concrete steppers used to evaluate the theorems on explicit inputs. -/

/-- The trivial rng model: the stream state carries no information. -/
def wRng : ℤ → Unit := fun _ => ()

/-- A stepper where `WELL` transitions to `STROKE_DEAD` after one time unit
and every other state is absorbing. -/
def wG : Gillespie Unit :=
  ⟨fun i r => if i = 0 then (some (1, 2), r) else (none, r)⟩

/-- Final loop state of `wG` run with horizon 10. -/
def wFinal : LoopState Unit :=
  ⟨1, ⟨HealthStates.STROKE_DEAD, some 1, 1⟩, (),
    [⟨1, HealthStates.STROKE_DEAD, true, ⟨HealthStates.STROKE_DEAD, some 1, 1⟩⟩]⟩

theorem wG_run : Patient.simulate wG wRng 0 10 3 = some (SimOutcome.done wFinal) := by
  norm_num [Patient.simulate, simulateAux, initState, simStep, simStepGo,
    clampStep, moveStep, wG, wRng, wFinal, HealthStates.value, HealthStates.ofValue?,
    PatientStateMonitor.init, PatientStateMonitor.update, isDeathState, isStrokeState]

theorem wG_deathAbsorbing : DeathAbsorbing wG := by
  intro r st h
  rcases h with h | h <;> subst h <;> rfl

/-- A stepper where `WELL` and `STROKE` alternate: the second holding time
overshoots any small horizon, so the run ends in a clamp while in `STROKE`. -/
def cexG : Gillespie Unit :=
  ⟨fun i r => if i = 0 then (some (1, 1), r) else (some (10, 0), r)⟩

/-- Final loop state of `cexG` run with horizon 2. -/
def cexFinal : LoopState Unit :=
  ⟨2, ⟨HealthStates.STROKE, none, 2⟩, (),
    [⟨1, HealthStates.STROKE, true, ⟨HealthStates.STROKE, none, 1⟩⟩,
     ⟨2, HealthStates.STROKE, false, ⟨HealthStates.STROKE, none, 2⟩⟩]⟩

theorem cexG_run : Patient.simulate cexG wRng 0 2 5 = some (SimOutcome.done cexFinal) := by
  norm_num [Patient.simulate, simulateAux, initState, simStep, simStepGo,
    clampStep, moveStep, cexG, wRng, cexFinal, HealthStates.value, HealthStates.ofValue?,
    PatientStateMonitor.init, PatientStateMonitor.update, isDeathState, isStrokeState]
  decide

/-- A stepper whose first holding time (5) overshoots a horizon of 2. -/
def cexG2 : Gillespie Unit := ⟨fun _ r => (some (5, 1), r)⟩

/-- A stepper that always moves to `WELL` after one time unit. -/
def wG3 : Gillespie Unit := ⟨fun _ r => (some (1, 0), r)⟩

/-- A stepper that always returns a holding time of zero, staying in place:
a realizable answer of the exponential sampler. -/
def zeroG : Gillespie Unit := ⟨fun i r => (some (0, i), r)⟩

theorem zeroG_loop : ∀ (fuel : ℕ) (tr : List TraceEntry),
    simulateAux zeroG 1 fuel ⟨0, PatientStateMonitor.init, (), tr⟩ = none
  | 0, _ => rfl
  | fuel + 1, tr => by
      have hstep : simStep zeroG 1 ⟨0, PatientStateMonitor.init, (), tr⟩
          = StepOut.next ⟨0, PatientStateMonitor.init, (),
              tr ++ [⟨0, HealthStates.WELL, true, PatientStateMonitor.init⟩]⟩ := by
        norm_num [simStep, zeroG, simStepGo, HealthStates.value, HealthStates.ofValue?,
          moveStep, PatientStateMonitor.update, PatientStateMonitor.init,
          isDeathState, isStrokeState]
        decide
      simp only [simulateAux, hstep]
      exact zeroG_loop fuel (tr ++ [⟨0, HealthStates.WELL, true, PatientStateMonitor.init⟩])

/-- Non-termination of the loop for a given stepper and horizon: no amount of
fuel completes the run. -/
def neverStops (g : Gillespie Unit) (L : ℚ) : Prop :=
  ∀ fuel : ℕ, Patient.simulate g wRng 0 L fuel = none

/-! The claims. -/

/-- Claim C1 as stated is false: in a completed run with `sim_length = 2 > 0`,
the final `nStrokes` is 2 while only one applied (sampled) transition entered
a stroke-type state — the horizon-clamp update repeats the pre-transition
`STROKE` state and `PatientStateMonitor.update` counts it again. -/
theorem claim_C1_counterexample :
    Patient.simulate cexG wRng 0 2 5 = some (SimOutcome.done cexFinal) ∧
    (0:ℚ) < 2 ∧ cexFinal.monitor.nStrokes = 2 ∧ realStrokeCount cexFinal.trace = 1 :=
  ⟨cexG_run, by norm_num, rfl, rfl⟩

/-- Claim C1 (amended): at termination of `Patient.simulate`, `nStrokes`
equals the number of monitor updates performed with a stroke-type state
(`STROKE` or `STROKE_DEAD`) — this counts every applied sampled transition
into such a state, plus the final horizon-clamp update when the patient is
sitting in `STROKE` at clamp time — and `nStrokes` is monotonically
non-decreasing over the run. -/
theorem claim_C1 {R : Type} (g : Gillespie R) (initRng : ℤ → R) (id : ℤ) (L : ℚ)
    (fuel : ℕ) (s : LoopState R) (hL : 0 < L)
    (h : Patient.simulate g initRng id L fuel = some (SimOutcome.done s)) :
    s.monitor.nStrokes = s.trace.countP isStrokeEntry ∧
    List.Chain' strokeMonoRel (monSeq s) := by
  have hs := simulate_SimInv h
  refine ⟨hs.strokes_count, hs.strokes_chain.imp ?_⟩
  intro a b hab
  show a.nStrokes ≤ b.nStrokes
  rcases hab with h1 | h1 <;> omega

theorem claim_C1_witness :
    wFinal.monitor.nStrokes = wFinal.trace.countP isStrokeEntry ∧
    List.Chain' strokeMonoRel (monSeq wFinal) :=
  claim_C1 wG wRng 0 10 3 wFinal (by norm_num) wG_run

/-- Claim C2: when the sampled holding time would overshoot the horizon
(`dt + t > sim_length`), the loop body sets `t = sim_length`, keeps the
pre-transition state, performs exactly one monitor update with the clamped
time and that state, and stops; the sampled destination index `nsi` does not
appear in the result, so the sampled destination state is never recorded. -/
theorem claim_C2 {R : Type} (g : Gillespie R) (L : ℚ) (s : LoopState R)
    (dt : ℚ) (nsi : ℕ) (r' : R)
    (hstep : g.get_next_state s.monitor.currentState.value s.rng = (some (dt, nsi), r'))
    (hover : dt + s.t > L) :
    simStep g L s = StepOut.halt ⟨L, s.monitor.update L s.monitor.currentState, r',
      s.trace ++ [⟨L, s.monitor.currentState, false,
        s.monitor.update L s.monitor.currentState⟩]⟩ := by
  have h0 : simStep g L s = simStepGo s L r' (some (dt, nsi)) := by
    unfold simStep
    rw [hstep]
  rw [h0]
  simp only [simStepGo]
  rw [if_pos hover, HealthStates.ofValue?_value]
  rfl

theorem claim_C2_witness :
    simStep cexG2 2 (initState wRng 0) = StepOut.halt ⟨2,
      PatientStateMonitor.init.update 2 HealthStates.WELL, (),
      [⟨2, HealthStates.WELL, false, PatientStateMonitor.init.update 2 HealthStates.WELL⟩]⟩ :=
  claim_C2 cexG2 2 (initState wRng 0) 5 1 () rfl (by norm_num [initState])

/-- Claim C3: with death states absorbing, if the final state is a death-type
state then `survivalTime` equals the time of the last monitor update — the
exact time that state was entered — and that time is at most `sim_length`;
otherwise `survivalTime` is unset. -/
theorem claim_C3 {R : Type} (g : Gillespie R) (initRng : ℤ → R) (id : ℤ) (L : ℚ)
    (fuel : ℕ) (s : LoopState R) (hA : DeathAbsorbing g)
    (h : Patient.simulate g initRng id L fuel = some (SimOutcome.done s)) :
    (isDeathState s.monitor.currentState →
      ∃ e : TraceEntry, s.trace.getLast? = some e ∧ e.state = s.monitor.currentState ∧
        s.monitor.survivalTime = some e.time ∧ e.time ≤ L) ∧
    (¬ isDeathState s.monitor.currentState → s.monitor.survivalTime = none) := by
  have hs := simulate_SimInv h
  have ha := simulate_AbsInv hA h
  constructor
  · intro hd
    rcases List.eq_nil_or_concat s.trace with htr | ⟨l', e, htr⟩
    on_goal 2 => rw [List.concat_eq_append] at htr
    · exfalso
      have hm : s.monitor = PatientStateMonitor.init := by
        rw [hs.last_after, htr]
        rfl
      rw [hm] at hd
      simp [PatientStateMonitor.init, isDeathState] at hd
    · have hme : e ∈ s.trace := by
        rw [htr]
        exact List.mem_append_right _ (List.mem_singleton.mpr rfl)
      have hmon : s.monitor = e.after := by
        rw [hs.last_after, htr, List.map_append]
        simp [lastD_concat]
      obtain ⟨m0, hm0⟩ := hs.entries_update e hme
      have hcs : s.monitor.currentState = e.state := by
        rw [hmon, hm0, PatientStateMonitor.update_currentState]
      have hd' : isDeathState e.state := by rwa [hcs] at hd
      refine ⟨e, ?_, hcs.symm, ?_, hs.times_le e hme⟩
      · rw [htr]
        exact List.getLast?_concat _
      · rw [hmon, hm0, PatientStateMonitor.update_survivalTime, if_pos hd']
  · intro hnd
    by_contra hne
    exact hnd (ha.dinv hne)

theorem claim_C3_witness : wFinal.monitor.survivalTime = some 1 := by
  obtain ⟨hdeath, _⟩ := claim_C3 wG wRng 0 10 3 wFinal wG_deathAbsorbing wG_run
  obtain ⟨e, hlast, hstate, hsv, hle⟩ := hdeath (Or.inl rfl)
  have h0 : wFinal.trace.getLast?
      = some ⟨1, HealthStates.STROKE_DEAD, true, ⟨HealthStates.STROKE_DEAD, some 1, 1⟩⟩ := rfl
  rw [h0] at hlast
  have he := (Option.some.inj hlast).symm
  rw [hsv, he]

/-- Claim C4: `calculate_cohort_outcomes` fails with the `ZeroDivisionError`
exactly when one of the accumulated sequences is empty — in particular
whenever `survivalTimes` is empty, leaving `meanSurvivalTime` untouched rather
than defaulting it — and on a non-empty `survivalTimes` it sets
`meanSurvivalTime` to the arithmetic mean of the recorded times. -/
theorem claim_C4 (c : CohortOutcomes) (pop : ℤ) :
    (c.calculate_cohort_outcomes pop).2
      = (if c.survivalTimes = [] ∨ c.nTotalStrokes = []
         then some "ZeroDivisionError" else none) ∧
    (c.calculate_cohort_outcomes pop).1.meanSurvivalTime
      = (if c.survivalTimes = [] then c.meanSurvivalTime
         else some (c.survivalTimes.sum / (c.survivalTimes.length : ℚ))) := by
  unfold CohortOutcomes.calculate_cohort_outcomes
  by_cases h1 : c.survivalTimes = [] <;> by_cases h2 : c.nTotalStrokes = [] <;>
    simp [h1, h2]

/-- Claim C5 as stated is false: with `pop_size = 1` and the non-positive
horizon `-1`, the cohort simulation does not fail with an
`InvalidArgumentError` before any patient is simulated — the patient is
simulated (its stroke count `0` is extracted into `nTotalStrokes`), and the
run then fails with the `ZeroDivisionError` of the outcome calculation. -/
theorem claim_C5_counterexample :
    Cohort.simulate wG wRng 0 1 (-1) 3
      = some (⟨[], [0], none, none, none⟩, some "ZeroDivisionError") ∧
    ((-1 : ℚ) ≤ 0) ∧
    (⟨[], [0], none, none, none⟩ : CohortOutcomes).nTotalStrokes.length = 1 := by
  refine ⟨?_, by norm_num, rfl⟩
  norm_num [Cohort.simulate, cohortStep, Patient.simulate, simulateAux, initState,
    simStep, simStepGo, clampStep, moveStep, wG, wRng, HealthStates.value,
    HealthStates.ofValue?, PatientStateMonitor.init, PatientStateMonitor.update,
    isDeathState, isStrokeState, CohortOutcomes.extract_outcome, CohortOutcomes.init,
    CohortOutcomes.calculate_cohort_outcomes, List.range_succ]
  decide

/-- Claim C5 (amended): `Cohort.simulate` performs no argument validation.
With a non-positive population size the patient loop runs zero times and the
subsequent outcome calculation fails with the `ZeroDivisionError` on the empty
survival-times sequence; no `InvalidArgumentError` exists in the code. -/
theorem claim_C5 {R : Type} (g : Gillespie R) (initRng : ℤ → R) (cid pop_size : ℤ)
    (L : ℚ) (fuel : ℕ) (h : pop_size ≤ 0) :
    Cohort.simulate g initRng cid pop_size L fuel
      = some (CohortOutcomes.init, some "ZeroDivisionError") := by
  unfold Cohort.simulate
  rw [Int.toNat_of_nonpos h]
  rfl

theorem claim_C5_witness :
    Cohort.simulate wG wRng 3 (-2) 5 4
      = some (CohortOutcomes.init, some "ZeroDivisionError") :=
  claim_C5 wG wRng 3 (-2) 5 4 (by norm_num)

/-- Claim C6: over the sequence of monitor states of a completed run (with
death states absorbing), a survival time, once set, keeps its value until
termination, and each update changes `nStrokes` by 0 or +1. -/
theorem claim_C6 {R : Type} (g : Gillespie R) (initRng : ℤ → R) (id : ℤ) (L : ℚ)
    (fuel : ℕ) (s : LoopState R) (hA : DeathAbsorbing g)
    (h : Patient.simulate g initRng id L fuel = some (SimOutcome.done s)) :
    List.Chain' monitorStepRel (monSeq s) :=
  (simulate_AbsInv hA h).chain

theorem claim_C6_witness : List.Chain' monitorStepRel (monSeq wFinal) :=
  claim_C6 wG wRng 0 10 3 wFinal wG_deathAbsorbing wG_run

/-- Claim C7 as stated is false: a stepper that returns holding time 0 — a
value the exponential sampler can produce — makes the loop body neither stop
nor advance `t`, so `Patient.simulate` never terminates at horizon 1. -/
theorem claim_C7_counterexample : neverStops zeroG 1 :=
  fun fuel => zeroG_loop fuel []

/-- Claim C7 (amended): provided every sampled holding time is at least some
`δ > 0`, `Patient.simulate` terminates within `⌈sim_length / δ⌉` loop
iterations; moreover every continuing iteration strictly advances `t` and
keeps `t ≤ sim_length`, and every halting iteration leaves `t` at
`sim_length` (horizon clamp) or unchanged (absorbing state). -/
theorem claim_C7 {R : Type} (g : Gillespie R) (initRng : ℤ → R) (id : ℤ) (L δ : ℚ)
    (fuel : ℕ) (s s' : LoopState R) (hδ : 0 < δ) (hg : GPos g δ)
    (hfuel : ⌈L / δ⌉.toNat < fuel) :
    (Patient.simulate g initRng id L fuel).isSome = true ∧
    (simStep g L s = StepOut.next s' → s.t < s'.t ∧ s'.t ≤ L) ∧
    (simStep g L s = StepOut.halt s' → s'.t = L ∨ s'.t = s.t) := by
  refine ⟨?_, ?_, ?_⟩
  · apply simulateAux_total hδ hg
    show ⌈(L - (0:ℚ)) / δ⌉.toNat < fuel
    rwa [sub_zero]
  · intro hn
    rcases simStep_cases g L s with ⟨r', hgc, he⟩ | ⟨dt, nsi, r', hgc, hov, he⟩ |
      ⟨dt, nsi, r', ns, hgc, hov, hv, he⟩ | ⟨dt, nsi, r', hgc, hov, hv, he⟩
    · rw [he] at hn
      exact StepOut.noConfusion hn
    · rw [he] at hn
      exact StepOut.noConfusion hn
    · rw [he] at hn
      injection hn with hn
      rw [← hn]
      have hdt : δ ≤ dt := hg _ _ _ _ _ hgc
      constructor
      · show s.t < s.t + dt
        linarith
      · show s.t + dt ≤ L
        linarith [not_lt.mp hov]
    · rw [he] at hn
      exact StepOut.noConfusion hn
  · intro hh
    rcases simStep_cases g L s with ⟨r', hgc, he⟩ | ⟨dt, nsi, r', hgc, hov, he⟩ |
      ⟨dt, nsi, r', ns, hgc, hov, hv, he⟩ | ⟨dt, nsi, r', hgc, hov, hv, he⟩
    · rw [he] at hh
      injection hh with hh
      rw [← hh]
      exact Or.inr rfl
    · rw [he] at hh
      injection hh with hh
      rw [← hh]
      exact Or.inl rfl
    · rw [he] at hh
      exact StepOut.noConfusion hh
    · rw [he] at hh
      exact StepOut.noConfusion hh

theorem claim_C7_witness : (Patient.simulate wG3 wRng 0 3 5).isSome = true :=
  (claim_C7 wG3 wRng 0 3 1 5 (initState wRng 0) (initState wRng 0) one_pos
    (by
      intro i r dt nsi r' h
      injection h with h1 h2
      injection h1 with h3
      injection h3 with h4 h5
      exact le_of_eq h4)
    (by norm_num)).1

/-- Claim C8: the result of `Patient.simulate` — trajectory and final monitor
alike — is a function of the patient id (with the rate matrix and horizon
fixed), and the cohort loop is a map of independent per-patient runs, so a
patient's outcome does not depend on the other patients or on the order in
which they are run. -/
theorem claim_C8 {R : Type} (g : Gillespie R) (initRng : ℤ → R) (L : ℚ) (fuel : ℕ)
    (id1 id2 cid pop_size : ℤ) (h : id1 = id2) :
    Patient.simulate g initRng id1 L fuel = Patient.simulate g initRng id2 L fuel ∧
    Cohort.simulate g initRng cid pop_size L fuel
      = (runPatients g initRng cid pop_size L fuel (List.range pop_size.toNat)).map
          (fun ms => (ms.foldl CohortOutcomes.extract_outcome
            CohortOutcomes.init).calculate_cohort_outcomes pop_size) :=
  ⟨by rw [h], Cohort.simulate_eq_runPatients g initRng cid pop_size L fuel⟩

theorem claim_C8_witness :
    Patient.simulate wG wRng 5 10 3 = Patient.simulate wG wRng 5 10 3 ∧
    Cohort.simulate wG wRng 1 2 10 3
      = (runPatients wG wRng 1 2 10 3 (List.range (2:ℤ).toNat)).map
          (fun ms => (ms.foldl CohortOutcomes.extract_outcome
            CohortOutcomes.init).calculate_cohort_outcomes 2) :=
  claim_C8 wG wRng 10 3 5 5 1 2 rfl

/-- Claim C9: on the successful path, the survival curve stored in
`nLivingPatients` starts at `(0, initial_pop_size)`, its breakpoints are in
non-decreasing time order, each recorded survival time contributes exactly one
breakpoint that decrements the living count by exactly 1, and hence the curve
is non-increasing. -/
theorem claim_C9 (c : CohortOutcomes) (pop : ℤ)
    (h0 : ∀ x ∈ c.survivalTimes, 0 ≤ x) (hs : c.survivalTimes ≠ [])
    (hn : c.nTotalStrokes ≠ []) :
    (c.calculate_cohort_outcomes pop).1.nLivingPatients
      = some (PrevalencePathBatchUpdate pop c.survivalTimes
          (List.replicate c.survivalTimes.length (-1))) ∧
    (PrevalencePathBatchUpdate pop c.survivalTimes
        (List.replicate c.survivalTimes.length (-1))).head? = some (0, pop) ∧
    List.Chain' curveStepRel (PrevalencePathBatchUpdate pop c.survivalTimes
        (List.replicate c.survivalTimes.length (-1))) ∧
    (PrevalencePathBatchUpdate pop c.survivalTimes
        (List.replicate c.survivalTimes.length (-1))).length
      = c.survivalTimes.length + 1 := by
  refine ⟨?_, rfl, ?_, ?_⟩
  · unfold CohortOutcomes.calculate_cohort_outcomes
    rw [if_neg hs, if_neg hn]
  · show List.Chain' curveStepRel ((0, pop) :: curveFrom pop
      (List.insertionSort timeLE
        (c.survivalTimes.zip (List.replicate c.survivalTimes.length (-1)))))
    set z := c.survivalTimes.zip (List.replicate c.survivalTimes.length (-1 : ℤ)) with hz
    have hmem : ∀ q ∈ List.insertionSort timeLE z, q.2 = -1 := by
      intro q hq
      have hq' : q ∈ z := (List.perm_insertionSort timeLE z).mem_iff.mp hq
      rcases q with ⟨qt, qi⟩
      exact List.eq_of_mem_replicate (List.of_mem_zip hq').2
    have htime : ∀ q ∈ List.insertionSort timeLE z, 0 ≤ q.1 := by
      intro q hq
      have hq' : q ∈ z := (List.perm_insertionSort timeLE z).mem_iff.mp hq
      rcases q with ⟨qt, qi⟩
      exact h0 qt (List.of_mem_zip hq').1
    have hch : List.Chain' timeLE (List.insertionSort timeLE z) :=
      List.Pairwise.chain' (List.sorted_insertionSort timeLE z)
    refine curveFrom_chain _ pop (0, pop) rfl hmem ?_
    rcases hsl : List.insertionSort timeLE z with _ | ⟨q, rest⟩
    · exact List.chain'_singleton _
    · rw [hsl] at hch
      refine List.chain'_cons.mpr ⟨?_, hch⟩
      show (0:ℚ) ≤ q.1
      exact htime q (by rw [hsl]; exact List.mem_cons_self _ _)
  · show ((0, pop) :: curveFrom pop
      (List.insertionSort timeLE
        (c.survivalTimes.zip (List.replicate c.survivalTimes.length (-1))))).length
      = c.survivalTimes.length + 1
    rw [List.length_cons, curveFrom_length]
    rw [(List.perm_insertionSort timeLE _).length_eq, List.length_zip,
      List.length_replicate, min_self]

theorem claim_C9_witness :
    (CohortOutcomes.calculate_cohort_outcomes ⟨[2, 1], [0, 1], none, none, none⟩ 3).1.nLivingPatients
      = some (PrevalencePathBatchUpdate 3 [2, 1] (List.replicate ([2, 1] : List ℚ).length (-1))) ∧
    (PrevalencePathBatchUpdate 3 [2, 1]
        (List.replicate ([2, 1] : List ℚ).length (-1))).head? = some (0, 3) ∧
    List.Chain' curveStepRel (PrevalencePathBatchUpdate 3 [2, 1]
        (List.replicate ([2, 1] : List ℚ).length (-1))) ∧
    (PrevalencePathBatchUpdate 3 [2, 1]
        (List.replicate ([2, 1] : List ℚ).length (-1))).length
      = ([2, 1] : List ℚ).length + 1 :=
  claim_C9 ⟨[2, 1], [0, 1], none, none, none⟩ 3
    (by
      intro x hx
      rcases List.mem_cons.mp hx with h | h
      · rw [h]; norm_num
      · rw [List.mem_singleton.mp h]; norm_num)
    (by simp) (by simp)

/-- Claim C10: calling `calculate_cohort_outcomes` with an empty
`survivalTimes` raises before performing any assignment, so
`meanSurvivalTime`, `meanNumOfStrokes` and `nLivingPatients` keep their
previous values — the initialized `None`s on a fresh `CohortOutcomes`. -/
theorem claim_C10 (c : CohortOutcomes) (pop : ℤ) (h : c.survivalTimes = []) :
    (c.calculate_cohort_outcomes pop).2 = some "ZeroDivisionError" ∧
    (c.calculate_cohort_outcomes pop).1.meanSurvivalTime = c.meanSurvivalTime ∧
    (c.calculate_cohort_outcomes pop).1.meanNumOfStrokes = c.meanNumOfStrokes ∧
    (c.calculate_cohort_outcomes pop).1.nLivingPatients = c.nLivingPatients := by
  unfold CohortOutcomes.calculate_cohort_outcomes
  rw [if_pos h]
  exact ⟨rfl, rfl, rfl, rfl⟩

theorem claim_C10_witness :
    (CohortOutcomes.init.calculate_cohort_outcomes 7).2 = some "ZeroDivisionError" ∧
    (CohortOutcomes.init.calculate_cohort_outcomes 7).1.meanSurvivalTime = none ∧
    (CohortOutcomes.init.calculate_cohort_outcomes 7).1.meanNumOfStrokes = none ∧
    (CohortOutcomes.init.calculate_cohort_outcomes 7).1.nLivingPatients = none :=
  claim_C10 CohortOutcomes.init 7 rfl
